import Mathlib

/-!
Shallow embedding of the observeinc/mustache templating engine and
theorems settling the specification claims.

The embedding translates, file by file:
  * `lex.go`    — the tokenizer state machine;
  * `parse.go`  — the recursive-descent parser;
  * `lookup.go` — the context-chain lookup engine and truthiness predicate;
  * `mustache.go` — the node types, their `render` methods, `print`,
    the escapers and `Template`.

Text is modelled as `List Char`; Go byte positions become character
positions (identical on the ASCII inputs used throughout).  Go's
`interface{}` context values are modelled by the inductive `Value`.
Templates are heap objects in Go (`*Template` with shared, mutable
partial maps), so templates live in an explicit `Store` indexed by ids
and rendering threads the store, making any mutation of template state
observable.  The output writer (`writer.go` is not part of the sources;
only its call sites are) is modelled from the spec.
-/

namespace Mustache

/-- Go `whitespace` (lex.go): space, tab, newline, carriage return. -/
def whitespace (r : Char) : Bool :=
  r == ' ' || r == '\t' || r == '\n' || r == '\r'

/-- Run-time context values: the Go `interface{}` shapes reachable through
`lookup`/`truth`.  `null` is the nil interface (`reflect.Invalid`);
`ptr none` is a typed nil pointer (distinct from `null`, exactly as a Go
interface holding a typed nil pointer is non-nil); `float` is modelled by a
rational, since ordering against zero is all the code uses of float values
that the claims touch.  Struct contexts (`lookup_struct`) are not modelled:
no claim depends on them. -/
inductive Value where
  | null
  | bool (b : Bool)
  | int (i : Int)
  | uint (n : Nat)
  | float (q : ℚ)
  | str (s : List Char)
  | seq (l : List Value)
  | vmap (m : List (List Char × Value))
  | ptr (p : Option Value)

/-- Whether a value is the nil interface. -/
def Value.isNull : Value → Bool
  | .null => true
  | _ => false

/-- Go `truth` (lookup.go): the section-gating truthiness predicate.
The `Ptr`/`Interface` kinds loop via `goto out` on `r.Elem()`, which is
the recursive `ptr` case here; a nil pointer's `Elem()` is `Invalid`,
hence false.  The `default` branch (`r.Interface() != nil`) is reached by
map values, which are never the nil interface, hence true. -/
def truth : Value → Bool
  | .seq l => decide (0 < l.length)
  | .int i => decide (0 < i)
  | .uint n => decide (0 < n)
  | .float q => decide (0 < q)
  | .str s => decide (s ≠ [])
  | .bool b => b
  | .ptr none => false
  | .ptr (some v) => truth v
  | .null => false
  | .vmap _ => true

/-- Split a name at its first '.', mirroring Go
`strings.SplitN(name, ".", 2)` when a dot is present; `none` when
`strings.Contains(name, ".")` is false. -/
def splitFirst : List Char → Option (List Char × List Char)
  | [] => none
  | c :: cs =>
    if c = '.' then some ([], cs)
    else (splitFirst cs).map (fun pr => (c :: pr.1, pr.2))

theorem splitFirst_length {n : List Char} {pr : List Char × List Char}
    (h : splitFirst n = some pr) : pr.1.length + 1 + pr.2.length = n.length := by
  induction n generalizing pr with
  | nil => simp [splitFirst] at h
  | cons c cs ih =>
    by_cases hc : c = '.'
    · simp only [splitFirst, if_pos hc] at h
      cases h
      simp only [List.length_nil, List.length_cons]
      omega
    · simp only [splitFirst, if_neg hc, Option.map_eq_some'] at h
      obtain ⟨q, hq, rfl⟩ := h
      have := ih hq
      simp only [List.length_cons]
      omega

/-- Digits of a decimal numeral, `none` on empty input or a non-digit. -/
def digitsToNat : List Char → Option Nat
  | [] => none
  | [c] => if c.isDigit then some (c.toNat - '0'.toNat) else none
  | c :: cs =>
    if c.isDigit then
      (digitsToNat cs).map (fun n => (c.toNat - '0'.toNat) * 10 ^ cs.length + n)
    else none

/-- Go `strconv.Atoi` as used by `lookup_array`: optional sign, then at
least one digit.  (Atoi's overflow error cannot change `lookup_array`'s
outcome — a huge index is out of range either way — and is not
modelled.) -/
def atoi : List Char → Option Int
  | '+' :: cs => (digitsToNat cs).map Int.ofNat
  | '-' :: cs => (digitsToNat cs).map (fun n => -(Int.ofNat n))
  | cs => (digitsToNat cs).map Int.ofNat

/-- Go `lookup_map` (lookup.go): exact key match; on a hit, the value and
its truth with `found = true` (the chain walk stops even when the stored
value is nil). -/
def lookup_map (name : List Char) : List (List Char × Value) → Option (Value × Bool)
  | [] => none
  | (k, v) :: rest =>
    if k = name then some (v, truth v) else lookup_map name rest

/-- Go `lookup_array` (lookup.go): the name must parse as an in-range
non-negative index. -/
def lookup_array (name : List Char) (l : List Value) : Option (Value × Bool) :=
  match atoi name with
  | none => none
  | some idx =>
    if h : 0 ≤ idx ∧ idx.toNat < l.length then
      let v := l.get ⟨idx.toNat, h.2⟩
      some (v, truth v)
    else none

/-- One step of the chain walk in Go `lookup`: dispatch on the context's
kind.  Only maps and arrays/slices can match (structs are not modelled);
every other kind falls through to the next context. -/
def lookupCtx (name : List Char) : Value → Option (Value × Bool)
  | .vmap m => lookup_map name m
  | .seq l => lookup_array name l
  | _ => none

/-- The plain-name part of Go `lookup`: iterate over the context chain,
innermost first.  The `name == "."` test sits inside the loop, so `.`
yields the first context (and misses on an empty chain). -/
def lookupChain (name : List Char) : List Value → Value × Bool
  | [] => (.null, false)
  | c :: cs =>
    if name = ['.'] then (c, truth c)
    else
      match lookupCtx name c with
      | some r => r
      | none => lookupChain name cs

/-- Go `lookup` (lookup.go), with explicit recursion fuel (the recursion
is on strictly shorter names, so `name.length + 1` units always suffice;
see `lookupF_eq_lookup`).  A dotted name (other than `.` itself) is split
at the first dot; the head is resolved against the full chain and, only
if the result is *truthy* (`ok`), the tail is resolved against a
single-element chain holding that result; otherwise `(nil, false)`. -/
def lookupF : Nat → List Char → List Value → Value × Bool
  | 0, _, _ => (.null, false)
  | f + 1, name, context =>
    match splitFirst name with
    | some pr =>
      if name = ['.'] then lookupChain name context
      else
        let r := lookupF f pr.1 context
        if r.2 then lookupF f pr.2 [r.1] else (.null, false)
    | none => lookupChain name context

/-- Go `lookup` at its always-sufficient fuel. -/
def lookup (name : List Char) (context : List Value) : Value × Bool :=
  lookupF (name.length + 1) name context

theorem lookupF_eq_lookup (f : Nat) (name : List Char) (context : List Value)
    (h : name.length < f) : lookupF f name context = lookup name context := by
  induction f using Nat.strong_induction_on generalizing name context with
  | _ f ih =>
    match f, h with
    | f + 1, h =>
      show lookupF (f + 1) name context = lookupF (name.length + 1) name context
      cases hs : splitFirst name with
      | none => simp [lookupF, hs]
      | some pr =>
        have hlen := splitFirst_length hs
        by_cases hdot : name = ['.']
        · simp [lookupF, hs, hdot]
        · have h1 : pr.1.length < f := by omega
          have h2 : pr.2.length < f := by omega
          have h1n : pr.1.length < name.length := by omega
          have h2n : pr.2.length < name.length := by omega
          simp only [lookupF, hs, if_neg hdot]
          rw [ih f (by omega) pr.1 context h1, ih name.length h pr.1 context h1n]
          by_cases hok : (lookup pr.1 context).2
          · simp only [hok, if_true]
            rw [ih f (by omega) pr.2 _ h2, ih name.length h pr.2 _ h2n]
          · simp only [hok, Bool.false_eq_true, if_false]

/-- The claim's variant of the dotted-name rule, written from the spec's
words for comparison with `lookup`: the suffix is resolved whenever the
head resolves to a *present* value (non-nil), rather than to a truthy
one. -/
def lookupClaimedF : Nat → List Char → List Value → Value × Bool
  | 0, _, _ => (.null, false)
  | f + 1, name, context =>
    match splitFirst name with
    | some pr =>
      if name = ['.'] then lookupChain name context
      else
        let r := lookupClaimedF f pr.1 context
        if r.1.isNull then (.null, false) else lookupClaimedF f pr.2 [r.1]
    | none => lookupChain name context

/-- The claim's dotted-name rule at its always-sufficient fuel. -/
def lookupClaimed (name : List Char) (context : List Value) : Value × Bool :=
  lookupClaimedF (name.length + 1) name context

/-! ## Tokenizer (lex.go) -/

/-- Token kinds (lex.go).  `pRef` is the partial marker; `setLeftDelim`
and `setRightDelim` are declared in the source but never emitted. -/
inductive TokenType where
  | error | eof | identifier | leftDelim | rightDelim | text | comment
  | sectionStart | sectionInverse | sectionFunction | sectionEnd
  | rawStart | rawEnd | rawAlt | pRef | setDelim | setLeftDelim
  | setRightDelim | testValue
deriving DecidableEq

/-- The `tokenName` display map, as used when the parser formats an
unexpected token into an error message. -/
def tokenTypeName : TokenType → List Char
  | .error => "t_error".data
  | .eof => "t_eof".data
  | .identifier => "t_ident".data
  | .leftDelim => "t_left_delim".data
  | .rightDelim => "t_right_delim".data
  | .text => "t_text".data
  | .comment => "t_comment".data
  | .sectionStart => "t_section_start".data
  | .sectionInverse => "t_section_inverse".data
  | .sectionFunction => "t_section_function".data
  | .sectionEnd => "t_section_end".data
  | .rawStart => "t_raw_start".data
  | .rawEnd => "t_raw_end".data
  | .rawAlt => "t_raw_alt".data
  | .pRef => "t_partial".data
  | .setDelim => "t_set_delim".data
  | .setLeftDelim => "t_set_left_delim".data
  | .setRightDelim => "t_set_right_delim".data
  | .testValue => "t_unknown_18".data

/-- A scanned token: kind, value slice, 1-based line, column. -/
structure Token where
  typ : TokenType
  val : List Char
  line : Nat
  col : Nat
deriving DecidableEq

/-- Scanner state (lex.go `lexer`): the input, the active delimiters, the
cursor `pos`, the pending-token start `start`, and the extension flag. -/
structure Lexer where
  input : List Char
  leftDelim : List Char
  rightDelim : List Char
  pos : Nat
  start : Nat
  useTestValueSection : Bool
deriving DecidableEq

/-- Go `lineNum`: 1 + newlines before the cursor. -/
def lineNum (input : List Char) (pos : Nat) : Nat :=
  1 + (input.take pos).count '\n'

/-- Go `columnNum`: characters on the current line before the cursor. -/
def colNum (input : List Char) (pos : Nat) : Nat :=
  (input.take pos).foldl (fun acc c => if c = '\n' then 0 else acc + 1) 0

/-- Go `emit`: a token valued `input[start:pos]` stamped with the cursor's
line/column; `start` moves up to `pos`.  (Here and in the state functions
below the scanner state is destructured and rebuilt with explicit
constructors so that concrete runs reduce in polynomial time.) -/
def Lexer.emit : Lexer → TokenType → Token × Lexer
  | ⟨input, ld, rd, pos, start, tvs⟩, tt =>
    ({ typ := tt, val := (input.drop start).take (pos - start),
       line := lineNum input pos, col := colNum input pos },
     ⟨input, ld, rd, pos, pos, tvs⟩)

/-- Go `errorf`: an error token carrying the message and the failure
position.  (At its call sites other than `stateSetDelim` the scanner then
halts.) -/
def Lexer.errTok : Lexer → List Char → Token
  | ⟨input, _, _, pos, _, _⟩, msg =>
    { typ := .error, val := msg, line := lineNum input pos, col := colNum input pos }

/-- Index of the first position in `s` where `pat` is a prefix
(`strings.Index`, and the lookahead loop of `stateText`). -/
def subIndex (pat : List Char) (s : List Char) : Option Nat :=
  if pat.isPrefixOf s then some 0
  else
    match s with
    | [] => none
    | _ :: cs => (subIndex pat cs).map (· + 1)

/-- `strings.Split` on a single separator character. -/
def splitOnChar (sep : Char) : List Char → List (List Char)
  | [] => [[]]
  | c :: cs =>
    match splitOnChar sep cs with
    | [] => [[c]]
    | g :: gs => if c = sep then [] :: g :: gs else (c :: g) :: gs

/-- Number of leading characters failing `p` (scan-until helper). -/
def countUntil (p : Char → Bool) : List Char → Nat
  | [] => 0
  | c :: cs => if p c then 0 else countUntil p cs + 1

/-- Go `consumeWhitespace`: leading whitespace length. -/
def countWs : List Char → Nat
  | [] => 0
  | c :: cs => if whitespace c then countWs cs + 1 else 0

/-- The body of `stateIdentWithMode`'s scan loop over the remaining
input: returns `(consumed, trailing-whitespace count)` when the right
delimiter is reached, `none` at end of input.  A non-whitespace,
non-delimiter character resets the trailing-whitespace counter. -/
def identScan (rd : List Char) : List Char → Nat → Option (Nat × Nat)
  | [], _ => none
  | r :: rest, ws =>
    if ¬ whitespace r ∧ ¬ rd.isPrefixOf (r :: rest) then
      (identScan rd rest 0).map (fun pr => (pr.1 + 1, pr.2))
    else if whitespace r then
      (identScan rd rest (ws + 1)).map (fun pr => (pr.1 + 1, pr.2))
    else some (0, ws)

/-- Which state `stateIdentWithMode` exits into: `stateTag` for ordinary
tags, `stateTestIdentRightDelim` inside the test-value sub-grammar. -/
inductive IdentExit where
  | toTag
  | toTestIdentRightDelim
deriving DecidableEq

/-- The scanner states of lex.go (each a `stateFn` there). -/
inductive LexState where
  | sText | sLeftDelim | sRightDelim | sTag | sComment | sSetDelim
  | sIdent (exit : IdentExit)
  | sTest | sTestSentinel | sTestIdentLeftDelim | sTestIdentRightDelim
  | sTestValue
deriving DecidableEq

/-- Go `stateText`: scan to the next left-delimiter occurrence; emit the
skipped text (if non-empty); at end of input emit trailing text and a
final EOF token, then halt. -/
def stepText : Lexer → List Token × Option (LexState × Lexer)
  | ⟨input, ld, rd, pos, start, tvs⟩ =>
    match subIndex ld (input.drop pos) with
    | some k =>
      let pos2 := pos + k
      if pos2 > start then
        let (t, l2) := Lexer.emit ⟨input, ld, rd, pos2, start, tvs⟩ .text
        ([t], some (.sLeftDelim, l2))
      else
        ([], some (.sLeftDelim, ⟨input, ld, rd, pos2, start, tvs⟩))
    | none =>
      let pos2 := input.length
      if pos2 > start then
        let (t, l2) := Lexer.emit ⟨input, ld, rd, pos2, start, tvs⟩ .text
        let (t2, _) := l2.emit .eof
        ([t, t2], none)
      else
        let (t2, _) := Lexer.emit ⟨input, ld, rd, pos2, start, tvs⟩ .eof
        ([t2], none)

/-- Go `stateLeftDelim`: consume the delimiter; `=` right after it means a
hidden delimiter change, otherwise emit the left-delimiter token. -/
def stepLeftDelim : Lexer → List Token × Option (LexState × Lexer)
  | ⟨input, ld, rd, pos, start, tvs⟩ =>
    let pos2 := pos + ld.length
    if (input.drop pos2).head? = some '=' then
      ([], some (.sSetDelim, ⟨input, ld, rd, pos2 + 1, start, tvs⟩))
    else
      let (t, l2) := Lexer.emit ⟨input, ld, rd, pos2, start, tvs⟩ .leftDelim
      ([t], some (.sTag, l2))

/-- Go `stateRightDelim`. -/
def stepRightDelim : Lexer → List Token × Option (LexState × Lexer)
  | ⟨input, ld, rd, pos, start, tvs⟩ =>
    let (t, l2) := Lexer.emit ⟨input, ld, rd, pos + rd.length, start, tvs⟩ .rightDelim
    ([t], some (.sText, l2))

/-- Go `stateComment`: everything up to the right delimiter becomes one
text token. -/
def stepComment : Lexer → List Token × Option (LexState × Lexer)
  | ⟨input, ld, rd, pos, start, tvs⟩ =>
    match subIndex rd (input.drop pos) with
    | none => ([Lexer.errTok ⟨input, ld, rd, pos, start, tvs⟩ "unclosed tag".data], none)
    | some i =>
      let (t, l1) := Lexer.emit ⟨input, ld, rd, pos + i, start, tvs⟩ .text
      ([t], some (.sRightDelim, l1))

/-- Go `stateSetDelim`.  Faithful to the source's slip: when the interior
splits into fewer than two space-separated fields, `l.errorf(...)` is
called but its returned halt state is discarded, so the error token is
followed by a delimiter-change token and scanning continues.  The first
two non-empty fields (via the `delimFn` chain) become the new left and
right delimiters; extra fields are ignored without error. -/
def stepSetDelim : Lexer → List Token × Option (LexState × Lexer)
  | ⟨input, ld, rd, pos, start, tvs⟩ =>
    let endPat := '=' :: rd
    match subIndex endPat (input.drop pos) with
    | none => ([Lexer.errTok ⟨input, ld, rd, pos, start, tvs⟩ "unclosed tag".data], none)
    | some i =>
      let interior := (input.drop pos).take i
      let delims := splitOnChar ' ' interior
      let errs :=
        if delims.length < 2 then
          [Lexer.errTok ⟨input, ld, rd, pos, start, tvs⟩
            "set delimiters should be separated by a space".data]
        else []
      let fields := delims.filter (fun d => decide (d ≠ []))
      let newLeft := match fields with | d :: _ => d | [] => ld
      let newRight := match fields with | _ :: d :: _ => d | _ => rd
      let pos2 := pos + i + endPat.length
      let (t, l3) := Lexer.emit ⟨input, newLeft, newRight, pos2, pos2, tvs⟩ .setDelim
      (errs ++ [t], some (.sText, l3))

/-- Go `stateTag`: dispatch inside a tag.  Checks, in order: `}`+right
delimiter (raw end), the bare right delimiter, the `#test_value`
extension, then the operator characters; any other character backs up
into the identifier scan. -/
def stepTag : Lexer → List Token × Option (LexState × Lexer)
  | ⟨input, ld, rd, pos, start, tvs⟩ =>
    let rest := input.drop pos
    if ('}' :: rd).isPrefixOf rest then
      let (t, l1) := Lexer.emit ⟨input, ld, rd, pos + 1, start, tvs⟩ .rawEnd
      ([t], some (.sRightDelim, l1))
    else if rd.isPrefixOf rest then
      ([], some (.sRightDelim, ⟨input, ld, rd, pos, start, tvs⟩))
    else if tvs && "#test_value".data.isPrefixOf rest then
      ([], some (.sTest, ⟨input, ld, rd, pos, start, tvs⟩))
    else
      match rest.head? with
      | none => ([Lexer.errTok ⟨input, ld, rd, pos, start, tvs⟩ "unclosed action".data], none)
      | some r =>
        let pos2 := pos + 1
        if r = '\n' then
          ([Lexer.errTok ⟨input, ld, rd, pos2, start, tvs⟩ "unclosed action".data], none)
        else if whitespace r then ([], some (.sTag, ⟨input, ld, rd, pos2, pos2, tvs⟩))
        else if r = '!' then
          let (t, l2) := Lexer.emit ⟨input, ld, rd, pos2, start, tvs⟩ .comment
          ([t], some (.sComment, l2))
        else if r = '#' then
          let (t, l2) := Lexer.emit ⟨input, ld, rd, pos2, start, tvs⟩ .sectionStart
          ([t], some (.sTag, l2))
        else if r = '^' then
          let (t, l2) := Lexer.emit ⟨input, ld, rd, pos2, start, tvs⟩ .sectionInverse
          ([t], some (.sTag, l2))
        else if r = '~' then
          let (t, l2) := Lexer.emit ⟨input, ld, rd, pos2, start, tvs⟩ .sectionFunction
          ([t], some (.sTag, l2))
        else if r = '/' then
          let (t, l2) := Lexer.emit ⟨input, ld, rd, pos2, start, tvs⟩ .sectionEnd
          ([t], some (.sTag, l2))
        else if r = '&' then
          let (t, l2) := Lexer.emit ⟨input, ld, rd, pos2, start, tvs⟩ .rawAlt
          ([t], some (.sTag, l2))
        else if r = '>' then
          let (t, l2) := Lexer.emit ⟨input, ld, rd, pos2, start, tvs⟩ .pRef
          ([t], some (.sTag, l2))
        else if r = '{' then
          let (t, l2) := Lexer.emit ⟨input, ld, rd, pos2, start, tvs⟩ .rawStart
          ([t], some (.sTag, l2))
        else
          ([], some (.sIdent .toTag, ⟨input, ld, rd, pos, start, tvs⟩))

/-- Go `stateIdentWithMode`: skip leading whitespace, scan the
identifier, back up over trailing whitespace, emit, and continue in the
exit state. -/
def stepIdent : IdentExit → Lexer → List Token × Option (LexState × Lexer)
  | exit, ⟨input, ld, rd, pos, _, tvs⟩ =>
    let p0 := pos + countWs (input.drop pos)
    match identScan rd (input.drop p0) 0 with
    | none =>
      ([Lexer.errTok ⟨input, ld, rd, input.length, p0, tvs⟩ "unclosed tag".data], none)
    | some (consumed, ws) =>
      let (t, l2) := Lexer.emit ⟨input, ld, rd, p0 + consumed - ws, p0, tvs⟩ .identifier
      let exitState := match exit with
        | .toTag => LexState.sTag
        | .toTestIdentRightDelim => LexState.sTestIdentRightDelim
      ([t], some (exitState, l2))

/-- Go `stateTest`: consume `#`, emit the test-value marker. -/
def stepTest : Lexer → List Token × Option (LexState × Lexer)
  | ⟨input, ld, rd, pos, start, tvs⟩ =>
    let (t, l1) := Lexer.emit ⟨input, ld, rd, pos + 1, start, tvs⟩ .testValue
    ([t], some (.sTestSentinel, l1))

/-- Go `stateTestSentinel`: consume the `test_value` literal as an
identifier token, then require the inner left delimiter. -/
def stepTestSentinel : Lexer → List Token × Option (LexState × Lexer)
  | ⟨input, ld, rd, pos, start, tvs⟩ =>
    let pos2 := pos + "test_value".data.length
    let (t, _) := Lexer.emit ⟨input, ld, rd, pos2, start, tvs⟩ .identifier
    let p := pos2 + countWs (input.drop pos2)
    if ld.isPrefixOf (input.drop p) then
      ([t], some (.sTestIdentLeftDelim, ⟨input, ld, rd, p, p, tvs⟩))
    else
      ([t, Lexer.errTok ⟨input, ld, rd, p, p, tvs⟩ "Missing test_value identifier".data], none)

/-- Go `stateTestIdentLeftDelim`. -/
def stepTestIdentLeftDelim : Lexer → List Token × Option (LexState × Lexer)
  | ⟨input, ld, rd, pos, start, tvs⟩ =>
    let (t, l2) := Lexer.emit ⟨input, ld, rd, pos + ld.length, start, tvs⟩ .leftDelim
    ([t], some (.sIdent .toTestIdentRightDelim, l2))

/-- Go `stateTestIdentRightDelim`. -/
def stepTestIdentRightDelim : Lexer → List Token × Option (LexState × Lexer)
  | ⟨input, ld, rd, pos, start, tvs⟩ =>
    let (t, l2) := Lexer.emit ⟨input, ld, rd, pos + rd.length, start, tvs⟩ .rightDelim
    ([t], some (.sTestValue, l2))

/-- Go `stateTestValue`: a double-quoted literal emitted as a text token;
a missing opening or closing quote is a lexical error. -/
def stepTestValue : Lexer → List Token × Option (LexState × Lexer)
  | ⟨input, ld, rd, pos, _, tvs⟩ =>
    let p0 := pos + countWs (input.drop pos)
    match (input.drop p0).head? with
    | none => ([Lexer.errTok ⟨input, ld, rd, p0, p0, tvs⟩ "invalid test_value value token".data], none)
    | some c =>
      let p1 := p0 + 1
      if c ≠ '"' then
        ([Lexer.errTok ⟨input, ld, rd, p1, p0, tvs⟩ "invalid test_value value token".data], none)
      else
        let k := countUntil (fun r => r == '"') (input.drop p1)
        let p2 := p1 + k
        if (input.drop p2).head? = some '"' then
          let (t, _) := Lexer.emit ⟨input, ld, rd, p2, p1, tvs⟩ .text
          ([t], some (.sTag, ⟨input, ld, rd, p2 + 1, p2 + 1, tvs⟩))
        else
          ([Lexer.errTok ⟨input, ld, rd, p2, p1, tvs⟩
             ("failed to find close \" for test_value value token".data)], none)

/-- One transition of the scanner: the tokens emitted by the state
function and the next state, `none` meaning the scan halts. -/
def lexStep : LexState → Lexer → List Token × Option (LexState × Lexer)
  | .sText, l => stepText l
  | .sLeftDelim, l => stepLeftDelim l
  | .sRightDelim, l => stepRightDelim l
  | .sTag, l => stepTag l
  | .sComment, l => stepComment l
  | .sSetDelim, l => stepSetDelim l
  | .sIdent e, l => stepIdent e l
  | .sTest, l => stepTest l
  | .sTestSentinel, l => stepTestSentinel l
  | .sTestIdentLeftDelim, l => stepTestIdentLeftDelim l
  | .sTestIdentRightDelim, l => stepTestIdentRightDelim l
  | .sTestValue, l => stepTestValue l

/-- Run the scanner, collecting every token it emits. -/
def lexRun : Nat → LexState → Lexer → List Token
  | 0, _, _ => []
  | f + 1, s, l =>
    match lexStep s l with
    | (ts, none) => ts
    | (ts, some (s2, l2)) => ts ++ lexRun f s2 l2

/-- Go `newLexer`. -/
def newLexer (input left right : List Char) (testValueSection : Bool) : Lexer :=
  ⟨input, left, right, 0, 0, testValueSection⟩

/-- The whole token stream of an input.  Every scanner step either
consumes input or halts within a bounded number of transitions, so this
fuel always suffices. -/
def lexAll (input left right : List Char) (tvs : Bool) : List Token :=
  lexRun (4 * input.length + 16) .sText (newLexer input left right tvs)

/-! ## Parser (parse.go) -/

/-- Escaping modes (mustache.go `escapeType`). -/
inductive EscapeType where
  | noEscape | htmlEscape | jsonEscape
deriving DecidableEq

/-- The parse-tree node variants of mustache.go (`textNode`, `varNode`,
`sectionNode`, `functionSectionNode`, `testNode`, `commentNode`,
`partialNode` — here `pRef` — and `delimNode`).  The source's interface
dispatch becomes a closed sum. -/
inductive Node where
  | text (s : List Char)
  | varn (name : List Char) (escape : EscapeType)
  | sect (name : List Char) (inverted : Bool) (elems : List Node)
  | funcSect (name : List Char) (opts : List (List Char × List Char)) (elems : List Node)
  | testv (ident : List Char) (tval : List Char) (elems : List Node)
  | comment (s : List Char)
  | pRef (name : List Char)
  | delim

/-- Parse errors: `p.errorf` carries the offending token's position
(`atPos`), the `fmt.Errorf` of `readt` does not (`plain`); `fuel` is the
out-of-fuel marker, unreachable at the fuel the wrappers pass. -/
inductive PErr where
  | atPos (line col : Nat) (msg : List Char)
  | plain (msg : List Char)
  | fuel
deriving DecidableEq

/-- Go `token.String()` (`"%s:%q"`), without the Go quoting of the
value. -/
def tokenStr (t : Token) : List Char :=
  tokenTypeName t.typ ++ ':' :: t.val

/-- Go `(p *parser) errorf`. -/
def errorfTok (t : Token) (msg : List Char) : PErr :=
  .atPos t.line t.col msg

/-- Go `(p *parser) read`: the buffered stream hands out tokens in order;
an exhausted buffer behaves as a permanent end of input. -/
def readTok : List Token → Token × List Token
  | [] => ({ typ := .eof, val := [], line := 0, col := 0 }, [])
  | t :: ts => (t, ts)

/-- Go `readt`: read until a token of type `tt` (`found = true`) or an
EOF token (`found = false`, the caller reports `token not found`);
returns the consumed tokens (terminator included) and the rest. -/
def readt (tt : TokenType) : List Token → List Token × List Token × Bool
  | [] => ([{ typ := .eof, val := [], line := 0, col := 0 }], [], false)
  | t :: ts =>
    if t.typ = .eof then ([t], ts, false)
    else if t.typ = tt then ([t], ts, true)
    else
      match readt tt ts with
      | (c, r, found) => (t :: c, r, found)

/-- Go `readv`: repeat `readt` until the terminator also matches the
wanted token's value. -/
def readv : Nat → Token → List Token → List Token × List Token × Bool
  | 0, _, ts => ([], ts, false)
  | f + 1, t, ts =>
    let (c, r, found) := readt t.typ ts
    if ¬ found then (c, r, false)
    else if (c.getLast?.map (fun lt => lt.val)) = some t.val then (c, r, true)
    else
      let (c2, r2, f2) := readv f t r
      (c ++ c2, r2, f2)

/-- The `tokenEOF` sentinel `subParser` appends to a captured
sub-stream. -/
def eofTok : Token := { typ := .eof, val := [], line := 0, col := 0 }

mutual

/-- Go `parse`: the top-level loop.  EOF ends the loop; an error token
becomes a positioned parse error; text, tag, raw-tag and
delimiter-change tokens produce nodes; any other token kind is skipped
(the switch has no default case). -/
def parseLoop : Nat → EscapeType → List Token → List Node → Except PErr (List Node × List Token)
  | 0, _, _, _ => .error .fuel
  | f + 1, esc, ts, acc =>
    let (tok, rest) := readTok ts
    match tok.typ with
    | .eof => .ok (acc.reverse, rest)
    | .error => .error (errorfTok tok tok.val)
    | .text => parseLoop f esc rest (.text tok.val :: acc)
    | .leftDelim =>
      match parseTag f esc rest with
      | .error e => .error e
      | .ok (n, rest2) => parseLoop f esc rest2 (n :: acc)
    | .rawStart =>
      match parseRawTag f rest with
      | .error e => .error e
      | .ok (n, rest2) => parseLoop f esc rest2 (n :: acc)
    | .setDelim => parseLoop f esc rest (.delim :: acc)
    | _ => parseLoop f esc rest acc

/-- Go `parseTag`: dispatch after a left delimiter.  There is no case for
`tokenSectionFunction`: a `{{~name}}` tag falls through to the
`unreachable code` error. -/
def parseTag : Nat → EscapeType → List Token → Except PErr (Node × List Token)
  | 0, _, _ => .error .fuel
  | f + 1, esc, ts =>
    let (tok, rest) := readTok ts
    match tok.typ with
    | .identifier => parseVar tok esc rest
    | .rawStart => parseRawTag f rest
    | .rawAlt =>
      let (t2, rest2) := readTok rest
      parseVar t2 .noEscape rest2
    | .comment => parseComment f [] rest
    | .sectionInverse => parseSection f esc true rest
    | .sectionStart => parseSection f esc false rest
    | .testValue => parseTest f esc rest
    | .pRef => parsePartial rest
    | _ => .error (errorfTok tok ("unreachable code ".data ++ tokenStr tok))

/-- Go `parseRawTag` (after `{{{`).  The source's error paths all cite
the first token `t`. -/
def parseRawTag : Nat → List Token → Except PErr (Node × List Token)
  | _, ts =>
    let (t, rest) := readTok ts
    if t.typ ≠ .identifier then .error (errorfTok t ("unexpected token ".data ++ tokenStr t))
    else
      let (n1, rest1) := readTok rest
      if n1.typ ≠ .rawEnd then .error (errorfTok t ("unexpected token ".data ++ tokenStr t))
      else
        let (n2, rest2) := readTok rest1
        if n2.typ ≠ .rightDelim then .error (errorfTok t ("unexpected token ".data ++ tokenStr t))
        else .ok (.varn t.val .noEscape, rest2)

/-- Go `parseVar`: the identifier must be followed by the right
delimiter. -/
def parseVar (ident : Token) (escape : EscapeType) (ts : List Token) :
    Except PErr (Node × List Token) :=
  let (t, rest) := readTok ts
  if t.typ ≠ .rightDelim then .error (errorfTok t ("unexpected token ".data ++ tokenStr t))
  else .ok (.varn ident.val escape, rest)

/-- Go `parseComment`: concatenate token values up to the right
delimiter. -/
def parseComment : Nat → List Char → List Token → Except PErr (Node × List Token)
  | 0, _, _ => .error .fuel
  | f + 1, acc, ts =>
    let (t, rest) := readTok ts
    match t.typ with
    | .eof => .error (errorfTok t ("unexpected token ".data ++ tokenStr t))
    | .error => .error (errorfTok t t.val)
    | .rightDelim => .ok (.comment acc, rest)
    | _ => parseComment f (acc ++ t.val) rest

/-- Go `parseSection`. -/
def parseSection : Nat → EscapeType → Bool → List Token → Except PErr (Node × List Token)
  | 0, _, _, _ => .error .fuel
  | f + 1, esc, inverse, ts =>
    let (t, rest) := readTok ts
    if t.typ ≠ .identifier then .error (errorfTok t ("unexpected token ".data ++ tokenStr t))
    else
      match parseSectionInternal f esc t rest with
      | .error e => .error e
      | .ok (nodes, rest2) => .ok (.sect t.val inverse nodes, rest2)

/-- Go `parsePartial`. -/
def parsePartial (ts : List Token) : Except PErr (Node × List Token) :=
  let (t, rest) := readTok ts
  if t.typ ≠ .identifier then .error (errorfTok t ("unexpected token ".data ++ tokenStr t))
  else
    let (n1, rest1) := readTok rest
    if n1.typ ≠ .rightDelim then .error (errorfTok t ("unexpected token ".data ++ tokenStr t))
    else .ok (.pRef t.val, rest1)

/-- The collection loop of Go `parseSectionInternal`: `readv` to the next
occurrence of the section's identifier; the token right before it
adjusts the nesting stack (section start, inverse start or test-value
increment it for the same name; section end decrements); stack zero
marks the matching close. -/
def sectionLoop : Nat → EscapeType → Token → List Token → List Token → Nat →
    Except PErr (List Token × List Token)
  | 0, _, _, _, _, _ => .error .fuel
  | f + 1, esc, t, ts, collected, stack =>
    let (c, r, found) := readv f t ts
    if ¬ found then
      .error (.plain ("token ".data ++ tokenTypeName t.typ ++ " not found".data))
    else
      let collected2 := collected ++ c
      let stack2 :=
        if c.length > 1 then
          match c.get? (c.length - 2) with
          | some tt =>
            if tt.typ = .sectionStart ∨ tt.typ = .testValue ∨ tt.typ = .sectionInverse then
              stack + 1
            else if tt.typ = .sectionEnd then stack - 1
            else stack
          | none => stack
        else stack
      if stack2 = 0 then .ok (collected2, r)
      else sectionLoop f esc t r collected2 stack2

/-- Go `parseSectionInternal`: consume the opening tag's right delimiter,
collect the balanced body, drop the trailing
left-delimiter/section-end/identifier triple, and re-parse the captured
tokens (with an EOF appended, as `subParser` does) as the children. -/
def parseSectionInternal : Nat → EscapeType → Token → List Token →
    Except PErr (List Node × List Token)
  | 0, _, _, _ => .error .fuel
  | f + 1, esc, t, ts =>
    let (next, rest) := readTok ts
    if next.typ ≠ .rightDelim then .error (errorfTok next ("unexpected token ".data ++ tokenStr next))
    else
      match sectionLoop f esc t rest [] 1 with
      | .error e => .error e
      | .ok (tokens, r) =>
        match parseLoop f esc (tokens.take (tokens.length - 3) ++ [eofTok]) [] with
        | .error e => .error e
        | .ok (nodes, _) => .ok (nodes, r)

/-- Go `parseTest` (`{{#test_value {{ident}} "literal"}}`): the sentinel
identifier, then the bound identifier's delimiter triple, then the
literal text token, then the balanced section body keyed on the sentinel
token. -/
def parseTest : Nat → EscapeType → List Token → Except PErr (Node × List Token)
  | 0, _, _ => .error .fuel
  | f + 1, esc, ts =>
    let (t, rest) := readTok ts
    if t.typ ≠ .identifier then .error (errorfTok t ("unexpected token ".data ++ tokenStr t))
    else
      let (n1, rest1) := readTok rest
      if n1.typ ≠ .leftDelim then .error (errorfTok n1 ("unexpected token ".data ++ tokenStr n1))
      else
        let (i, rest2) := readTok rest1
        if i.typ ≠ .identifier then .error (errorfTok i ("unexpected token ".data ++ tokenStr i))
        else
          let (n2, rest3) := readTok rest2
          if n2.typ ≠ .rightDelim then .error (errorfTok n2 ("unexpected token ".data ++ tokenStr n2))
          else
            let (v, rest4) := readTok rest3
            if v.typ ≠ .text then .error (errorfTok v ("unexpected token ".data ++ tokenStr v))
            else
              match parseSectionInternal f esc t rest4 with
              | .error e => .error e
              | .ok (nodes, r) => .ok (.testv i.val v.val nodes, r)

end

/-- Parse a token stream (Go `parser.parse` via `newParser`).  The fuel
is a crude but safe bound on the total number of loop iterations and
recursive descents the stream can cause. -/
def parseTokens (esc : EscapeType) (ts : List Token) : Except PErr (List Node) :=
  match parseLoop ((ts.length + 4) * (ts.length + 4)) esc ts [] with
  | .error e => .error e
  | .ok (nodes, _) => .ok nodes

/-- Go `Template.Parse`: tokenize with the template's configuration, then
parse at the template's default escape mode. -/
def parseSource (src : List Char) (left right : List Char) (tvs : Bool) (esc : EscapeType) :
    Except PErr (List Node) :=
  parseTokens esc (lexAll src left right tvs)

/-- The default delimiters (`New()`): left `{{`, right `}}`. -/
def defaultLeftDelim : List Char := ['\x7b', '\x7b']

/-- The default right delimiter. -/
def defaultRightDelim : List Char := ['\x7d', '\x7d']

/-- `Template.Parse` at `New()`'s defaults: default delimiters, HTML
escaping, test-value sections disabled. -/
def parseDefault (src : List Char) : Except PErr (List Node) :=
  parseSource src defaultLeftDelim defaultRightDelim false .htmlEscape

/-! ## Formatting and escaping (mustache.go) -/

/-- Lexicographic order on character lists (used to mirror the Go JSON
encoder's sorted map keys). -/
def listCharLe : List Char → List Char → Bool
  | [], _ => true
  | _ :: _, [] => false
  | a :: as, b :: bs => if a = b then listCharLe as bs else decide (a < b)

/-- Insert an entry into a key-sorted association list. -/
def insertByKey (p : List Char × Value) :
    List (List Char × Value) → List (List Char × Value)
  | [] => [p]
  | q :: qs => if listCharLe p.1 q.1 then p :: q :: qs else q :: insertByKey p qs

/-- Sort map entries by key, as Go's `encoding/json` does when
marshalling a map. -/
def sortByKey : List (List Char × Value) → List (List Char × Value)
  | [] => []
  | p :: ps => insertByKey p (sortByKey ps)

def hexDigit (n : Nat) : Char :=
  if n < 10 then Char.ofNat ('0'.toNat + n) else Char.ofNat ('a'.toNat + n - 10)

/-- A character inside a Go JSON string literal with HTML escaping off:
quote, backslash and control characters are escaped, nothing else. -/
def jsonEscapeChar (c : Char) : List Char :=
  if c = '"' then ['\\', '"']
  else if c = '\\' then ['\\', '\\']
  else if c = '\n' then ['\\', 'n']
  else if c = '\r' then ['\\', 'r']
  else if c = '\t' then ['\\', 't']
  else if c.toNat < 32 then
    ['\\', 'u', '0', '0', hexDigit (c.toNat / 16), hexDigit (c.toNat % 16)]
  else [c]

/-- The body (no surrounding quotes) of a JSON string literal. -/
def jsonStringBody (s : List Char) : List Char :=
  s.foldr (fun c acc => jsonEscapeChar c ++ acc) []

/-- Go float formatting (`%g`) is not modelled beyond a printable form;
no claim evaluates a rendered float. -/
def ratRepr (q : ℚ) : List Char :=
  (toString q).data

/-- The `default` branch of `print`: `encoding/json` marshalling with
`SetEscapeHTML(false)` and the trailing newline trimmed.  One
simplification: Go sorts map keys while this writes entries in order —
`sortByKey` exists for callers that need sorted input, and no claim
renders a multi-key map. -/
def jsonEncode : Value → List Char
  | .null => "null".data
  | .bool true => "true".data
  | .bool false => "false".data
  | .int i => (toString i).data
  | .uint n => (toString n).data
  | .float q => ratRepr q
  | .str s => '"' :: (jsonStringBody s ++ ['"'])
  | .ptr none => "null".data
  | .ptr (some v) => jsonEncode v
  | .seq l => '[' :: (jsonEncodeSeq l ++ [']'])
  | .vmap m => '{' :: (jsonEncodeMap m ++ ['}'])
where
  jsonEncodeSeq : List Value → List Char
    | [] => []
    | [v] => jsonEncode v
    | v :: rest => jsonEncode v ++ ',' :: jsonEncodeSeq rest
  jsonEncodeMap : List (List Char × Value) → List Char
    | [] => []
    | [(k, v)] => '"' :: (jsonStringBody k ++ '"' :: ':' :: jsonEncode v)
    | (k, v) :: rest =>
      '"' :: (jsonStringBody k ++ '"' :: ':' :: jsonEncode v) ++ ',' :: jsonEncodeMap rest

/-- Go `escapeHtml` (mustache.go): the five HTML-sensitive characters
become named entities (`'` and `"` included, per the mustache spec). -/
def escapeHtmlChar (r : Char) : List Char :=
  if r = '"' then "&quot;".data
  else if r = '\'' then "&apos;".data
  else if r = '&' then "&amp;".data
  else if r = '<' then "&lt;".data
  else if r = '>' then "&gt;".data
  else [r]

def escapeHtml (s : List Char) : List Char :=
  if s.any (fun c => c = '"' || c = '\'' || c = '&' || c = '<' || c = '>') then
    s.foldr (fun c acc => escapeHtmlChar c ++ acc) []
  else s

/-- Go `escapeJson`: JSON-encode the string and strip the opening quote
and the closing quote plus newline, leaving the literal body. -/
def escapeJson (s : List Char) : List Char :=
  jsonStringBody s

/-- Go `print` (mustache.go): format the value — none of the modelled
values carries a `fmt.Stringer` — then apply the requested escaping to
the whole formatted string. -/
def printValue (v : Value) (needEscape : EscapeType) : List Char :=
  let output :=
    match v with
    | .str s => s
    | .int i => (toString i).data
    | .uint n => (toString n).data
    | .float q => ratRepr q
    | other => jsonEncode other
  match needEscape with
  | .htmlEscape => escapeHtml output
  | .jsonEscape => escapeJson output
  | .noEscape => output

/-! ## Writer (modelled from the spec) -/

/-- Modelled from the spec: `writer.go` is not among the sources (only
its call sites `write`, `text`, `tag`, `Write` and `flush` are).  Per
§4.4 the writer is a buffering output sink that tracks whether the most
recent emission was tag-only or included visible text; content written
reaches the underlying sink on `flush`, verbatim (§8: tag-free templates
render to their source text). -/
structure Writer where
  sink : List Char
  buf : List Char
  tagOnly : Bool
deriving DecidableEq

/-- Modelled from the spec: a fresh writer over an empty sink. -/
def newWriter : Writer :=
  { sink := [], buf := [], tagOnly := false }

/-- Modelled from the spec: `w.write(r)` buffers one character. -/
def Writer.write : Writer → Char → Writer
  | ⟨sink, buf, t⟩, r => ⟨sink, buf ++ [r], t⟩

/-- Modelled from the spec: `w.Write` buffers a string. -/
def Writer.writeStr : Writer → List Char → Writer
  | ⟨sink, buf, t⟩, s => ⟨sink, buf ++ s, t⟩

/-- Modelled from the spec: `w.text()` records that visible text was
emitted. -/
def Writer.text : Writer → Writer
  | ⟨sink, buf, _⟩ => ⟨sink, buf, false⟩

/-- Modelled from the spec: `w.tag()` records a tag-only emission. -/
def Writer.tag : Writer → Writer
  | ⟨sink, buf, _⟩ => ⟨sink, buf, true⟩

/-- Modelled from the spec: `w.flush()` moves the buffer to the sink;
writing to the in-memory sink cannot fail. -/
def Writer.flush : Writer → Writer
  | ⟨sink, buf, t⟩ => ⟨sink ++ buf, [], t⟩

/-- Go `textNode.render`: per character, non-whitespace marks visible
text, then the character is written. -/
def writeText (w : Writer) : List Char → Writer
  | [] => w
  | r :: rest => writeText ((if whitespace r then w else w.text).write r) rest

/-! ## Templates and rendering (mustache.go) -/

/-- Render-time errors: `varNode`'s lookup miss (`failed to lookup %s`),
the `ErrorSlice` aggregate, a customizer's error, and the out-of-fuel
marker (unreachable at the fuel the wrappers pass). -/
inductive RErr where
  | miss (name : List Char)
  | slice (errs : List RErr)
  | custom (msg : List Char)
  | fuel

/-- A custom function (`CustomizerFuncWithOptions`): rendered buffer and
options in, replacement string or error out. -/
def Customizer : Type :=
  List Char → List (List Char × List Char) → Except (List Char) (List Char)

/-- The `Template` struct.  Partials hold template ids rather than
pointers: the heap of templates is an explicit `Store`. -/
structure TemplateData where
  name : List Char
  elems : List Node
  partials : List (List Char × Nat)
  customizers : List (List Char × Customizer)
  startDelim : List Char
  endDelim : List Char
  silentMiss : Bool
  testValueSection : Bool
  escape : EscapeType

/-- The template heap: ids to template state. -/
def Store : Type :=
  Nat → TemplateData

/-- Write one template's state (a Go pointer-field assignment). -/
def updateStore (st : Store) (i : Nat) (f : TemplateData → TemplateData) : Store :=
  fun j => if j = i then f (st j) else st j

/-- First match in a string-keyed association list (a Go map read). -/
def findByKey {α : Type} (k : List Char) : List (List Char × α) → Option α
  | [] => none
  | (k2, v) :: rest => if k2 = k then some v else findByKey k rest

/-- Go `New()`'s defaults: `{{`/`}}`, silent miss on, HTML escaping,
test-value sections off. -/
def newTemplateData : TemplateData :=
  { name := [], elems := [], partials := [], customizers := [],
    startDelim := defaultLeftDelim, endDelim := defaultRightDelim,
    silentMiss := true, testValueSection := false, escape := .htmlEscape }

/-- A render call's outcome: the (possibly mutated) template heap, the
writer, and the returned error. -/
structure RenderRes where
  store : Store
  wr : Writer
  err : Option RErr

/-- The five cooperating render routines of mustache.go, bundled at one
recursion depth: one unit of fuel is consumed by every recursive call, so
the bundle at depth `f + 1` refers to the bundle at depth `f`.  (A bundle
rather than a mutual block so that applications reduce definitionally.) -/
structure RenderFns where
  node : Store → Nat → Writer → List Value → Node → RenderRes
  list : Store → Nat → Writer → List Value → List Node → Store × Writer × List RErr
  seqLoop : Store → Nat → Writer → List Value → List Node → List Value →
    Store × Writer × List RErr
  template : Store → Nat → Writer → List Value → RenderRes
  elems : Store → Nat → Writer → List Value → List Node → RenderRes

/-- Out of fuel: unreachable at the fuel the wrappers pass. -/
def renderBase : RenderFns where
  node st _ w _ _ := ⟨st, w, some .fuel⟩
  list st _ w _ _ := (st, w, [.fuel])
  seqLoop st _ w _ _ _ := (st, w, [.fuel])
  template st _ w _ := ⟨st, w, some .fuel⟩
  elems st _ w _ _ := ⟨st, w, some .fuel⟩

/-- One depth of rendering, recursive calls going through `R`.

`node` is Go `node.render`, variant by variant (`tid` is the `*Template`
receiver `t`): text writes its characters; a variable looks up its name
and prints the value unless it is nil, which is a `failed to lookup`
error; a section gates on `ok != inverted`, iterates a non-empty slice
element by element and otherwise renders its children once with the
looked-up value prepended to the chain, collecting child errors; a
function section renders its children to a fresh writer, then pipes the
flushed buffer through the registered customizer, discarding it when
none is registered; a test-value section compares the unescaped
rendering of its ident against the literal and renders its children with
the unmodified chain on a match; comments and delimiter markers only
mark a tag; a partial looks up its name in the invoking template's
partial map, *assigns* a freshly built reduced map (the invoker's map
minus the partial's own name) to the invoked template, and renders it
with the current chain.

`list` is the `elemFn` child loop shared by section-like nodes: errors
collect without stopping the walk.  `seqLoop` runs `elemFn` once per
sequence element, the element prepended to the chain.  `template` /
`elems` are Go `Template.render`: with silent miss disabled the first
failing node's error returns at once — later nodes are skipped and the
final `w.flush()` never runs; otherwise errors are swallowed, the walk
continues, and the flush's result is returned. -/
def renderStep (R : RenderFns) : RenderFns where
  node st tid w c n :=
    match n with
    | .text s => ⟨st, writeText w s, none⟩
    | .varn name esc =>
      let w1 := w.text
      let r := lookup name c
      if r.1.isNull then ⟨st, w1, some (.miss name)⟩
      else ⟨st, w1.writeStr (printValue r.1 esc), none⟩
    | .sect name inverted elems =>
      let w1 := w.tag
      let r := lookup name c
      let body :=
        if r.2 ≠ inverted then
          match r.1 with
          | .seq l =>
            if 0 < l.length then R.seqLoop st tid w1 c elems l
            else R.list st tid w1 (r.1 :: c) elems
          | _ => R.list st tid w1 (r.1 :: c) elems
        else (st, w1, [])
      let (st2, w2, errs) := body
      ⟨st2, w2.tag,
        if errs.isEmpty then none
        else if (st2 tid).silentMiss then none else some (.slice errs)⟩
    | .funcSect name opts elems =>
      let w1 := w.tag
      let (st2, sub2, errs) := R.list st tid newWriter c elems
      let sub3 := sub2.flush
      if ¬ errs.isEmpty ∧ ¬ (st2 tid).silentMiss then ⟨st2, w1.tag, some (.slice errs)⟩
      else
        match findByKey name (st2 tid).customizers with
        | some fn =>
          match fn sub3.sink opts with
          | .error msg => ⟨st2, w1.tag, some (.custom msg)⟩
          | .ok s => ⟨st2, (w1.writeStr s).tag, none⟩
        | none => ⟨st2, w1.tag, none⟩
    | .testv ident tval elems =>
      let w1 := w.tag
      let r := lookup ident c
      if r.1.isNull then ⟨st, w1.tag, none⟩
      else if printValue r.1 .noEscape = tval then
        let (st2, w2, errs) := R.list st tid w1 c elems
        ⟨st2, w2.tag,
          if errs.isEmpty then none
          else if (st2 tid).silentMiss then none else some (.slice errs)⟩
      else ⟨st, w1.tag, none⟩
    | .comment _ => ⟨st, w.tag, none⟩
    | .delim => ⟨st, w.tag, none⟩
    | .pRef name =>
      let w1 := w.tag
      match findByKey name (st tid).partials with
      | none => ⟨st, w1, none⟩
      | some pid =>
        let st1 := updateStore st pid (fun d => { d with partials := [] })
        let reduced := ((st1 tid).partials).filter (fun kv => decide (kv.1 ≠ name))
        let st2 := updateStore st1 pid (fun d => { d with partials := reduced })
        match R.template st2 pid w1 c with
        | ⟨st3, w2, err⟩ =>
          match err with
          | none => ⟨st3, w2, none⟩
          | some e =>
            if (st3 tid).silentMiss then ⟨st3, w2, none⟩
            else ⟨st3, w2, some e⟩
  list st tid w c ns :=
    match ns with
    | [] => (st, w, [])
    | n :: rest =>
      match R.node st tid w c n with
      | ⟨st1, w1, err1⟩ =>
        let (st2, w2, errs) := R.list st1 tid w1 c rest
        match err1 with
        | none => (st2, w2, errs)
        | some e => (st2, w2, e :: errs)
  seqLoop st tid w c elems xs :=
    match xs with
    | [] => (st, w, [])
    | x :: rest =>
      let (st2, w2, errs1) := R.list st tid w (x :: c) elems
      let (st3, w3, errs2) := R.seqLoop st2 tid w2 c elems rest
      (st3, w3, errs1 ++ errs2)
  template st tid w c := R.elems st tid w c (st tid).elems
  elems st tid w c ns :=
    match ns with
    | [] => ⟨st, w.flush, none⟩
    | n :: rest =>
      match R.node st tid w c n with
      | ⟨st1, w1, err1⟩ =>
        match err1 with
        | some e =>
          if ¬ (st1 tid).silentMiss then ⟨st1, w1, some e⟩
          else R.elems st1 tid w1 c rest
        | none => R.elems st1 tid w1 c rest

/-- The render routines at recursion depth `f`. -/
def renderFns : Nat → RenderFns
  | 0 => renderBase
  | f + 1 => renderStep (renderFns f)

/-- Go `node.render`, fuel first. -/
def renderNode (f : Nat) (st : Store) (tid : Nat) (w : Writer) (c : List Value)
    (n : Node) : RenderRes :=
  (renderFns f).node st tid w c n

/-- The `elemFn` child loop, fuel first. -/
def renderList (f : Nat) (st : Store) (tid : Nat) (w : Writer) (c : List Value)
    (ns : List Node) : Store × Writer × List RErr :=
  (renderFns f).list st tid w c ns

/-- The per-element section loop, fuel first. -/
def renderSeqLoop (f : Nat) (st : Store) (tid : Nat) (w : Writer) (c : List Value)
    (elems : List Node) (xs : List Value) : Store × Writer × List RErr :=
  (renderFns f).seqLoop st tid w c elems xs

/-- Go `Template.render`, fuel first. -/
def renderTemplate (f : Nat) (st : Store) (tid : Nat) (w : Writer)
    (c : List Value) : RenderRes :=
  (renderFns f).template st tid w c

/-- The loop inside Go `Template.render`, fuel first. -/
def renderElems (f : Nat) (st : Store) (tid : Nat) (w : Writer) (c : List Value)
    (ns : List Node) : RenderRes :=
  (renderFns f).elems st tid w c ns

/-! ## Structural lemmas about the embedding -/

theorem lookup_map_truth {name : List Char} {m : List (List Char × Value)}
    {r : Value × Bool} (h : lookup_map name m = some r) : r.2 = truth r.1 := by
  induction m with
  | nil => simp [lookup_map] at h
  | cons kv rest ih =>
    obtain ⟨k, v⟩ := kv
    by_cases hk : k = name
    · simp only [lookup_map, if_pos hk, Option.some_inj] at h
      subst h; rfl
    · simp only [lookup_map, if_neg hk] at h
      exact ih h

theorem lookup_array_truth {name : List Char} {l : List Value}
    {r : Value × Bool} (h : lookup_array name l = some r) : r.2 = truth r.1 := by
  unfold lookup_array at h
  cases hi : atoi name with
  | none => rw [hi] at h; simp at h
  | some idx =>
    rw [hi] at h
    dsimp only at h
    by_cases hb : 0 ≤ idx ∧ idx.toNat < l.length
    · rw [dif_pos hb, Option.some_inj] at h
      subst h; rfl
    · rw [dif_neg hb] at h; simp at h

theorem lookupCtx_truth {name : List Char} {v : Value} {r : Value × Bool}
    (h : lookupCtx name v = some r) : r.2 = truth r.1 := by
  cases v with
  | vmap m => exact lookup_map_truth h
  | seq l => exact lookup_array_truth h
  | _ => simp [lookupCtx] at h

theorem lookupChain_truth (name : List Char) (ctx : List Value) :
    (lookupChain name ctx).2 = truth (lookupChain name ctx).1 := by
  induction ctx with
  | nil => rfl
  | cons c cs ih =>
    by_cases hd : name = ['.']
    · simp [lookupChain, hd]
    · simp only [lookupChain, if_neg hd]
      cases hc : lookupCtx name c with
      | none => exact ih
      | some r => exact lookupCtx_truth hc

/-- The invariant every return path of Go `lookup` maintains: the `ok`
flag is exactly the truth of the returned value. -/
theorem lookupF_truth (f : Nat) (name : List Char) (ctx : List Value) :
    (lookupF f name ctx).2 = truth (lookupF f name ctx).1 := by
  induction f generalizing name ctx with
  | zero => rfl
  | succ f ih =>
    show (lookupF (f + 1) name ctx).2 = truth (lookupF (f + 1) name ctx).1
    cases hs : splitFirst name with
    | none => simp only [lookupF, hs]; exact lookupChain_truth name ctx
    | some pr =>
      by_cases hd : name = ['.']
      · simp only [lookupF, hs, if_pos hd]; exact lookupChain_truth name ctx
      · simp only [lookupF, hs, if_neg hd]
        by_cases hok : (lookupF f pr.1 ctx).2
        · simp only [hok, if_true]; exact ih pr.2 [(lookupF f pr.1 ctx).1]
        · simp only [hok, Bool.false_eq_true, if_false]; rfl

theorem lookup_truth (name : List Char) (ctx : List Value) :
    (lookup name ctx).2 = truth (lookup name ctx).1 :=
  lookupF_truth _ name ctx

theorem writeText_buf (s : List Char) : ∀ w : Writer,
    (writeText w s).buf = w.buf ++ s ∧ (writeText w s).sink = w.sink := by
  induction s with
  | nil => intro w; simp [writeText]
  | cons c cs ih =>
    intro w
    obtain ⟨sink, buf, t⟩ := w
    simp only [writeText]
    rcases ih ((if whitespace c then (⟨sink, buf, t⟩ : Writer)
      else Writer.text ⟨sink, buf, t⟩).write c) with ⟨h1, h2⟩
    refine ⟨?_, ?_⟩
    · rw [h1]
      by_cases hc : whitespace c <;> simp [hc, Writer.write, Writer.text]
    · rw [h2]
      by_cases hc : whitespace c <;> simp [hc, Writer.write, Writer.text]

theorem subIndex_eq_none {p : List Char} :
    ∀ {s : List Char}, ¬ p <:+: s → subIndex p s = none := by
  intro s
  induction s with
  | nil =>
    intro h
    have hp : ¬ p.isPrefixOf ([] : List Char) = true := by
      intro hp
      exact h (List.isPrefixOf_iff_prefix.mp hp).isInfix
    simp only [subIndex, if_neg hp]
  | cons c cs ih =>
    intro h
    have hp : ¬ p.isPrefixOf (c :: cs) = true := by
      intro hp
      exact h (List.isPrefixOf_iff_prefix.mp hp).isInfix
    have hcs : ¬ p <:+: cs := by
      intro hi
      exact h (hi.trans (List.suffix_cons c cs).isInfix)
    simp only [subIndex, if_neg hp, ih hcs, Option.map_none']

/-- `Template.Render` over a fresh one-template heap at `New()`'s
defaults: parse the source, render against the context, and return the
sink contents together with the render error. -/
def renderSourceDefault (src : List Char) (c : List Value) :
    Except PErr (List Char × Option RErr) :=
  match parseDefault src with
  | .error e => .error e
  | .ok ns =>
    let st : Store := fun _ => { newTemplateData with elems := ns }
    let res := renderTemplate (src.length + 8) st 0 newWriter c
    .ok (res.wr.sink, res.err)

theorem lexAll_noTag {src : List Char} (h : ¬ defaultLeftDelim <:+: src)
    (hne : src ≠ []) :
    lexAll src defaultLeftDelim defaultRightDelim false =
      [⟨.text, src, lineNum src src.length, colNum src src.length⟩,
       ⟨.eof, [], lineNum src src.length, colNum src src.length⟩] := by
  unfold lexAll
  have hfuel : 4 * src.length + 16 = (4 * src.length + 15) + 1 := by omega
  rw [hfuel]
  simp only [lexRun, lexStep, stepText, newLexer, List.drop_zero, subIndex_eq_none h]
  have hlen : 0 < src.length := List.length_pos.mpr hne
  simp only [Lexer.emit, if_pos hlen, List.drop_zero, Nat.sub_zero, List.take_length,
    List.drop_length, Nat.sub_self, List.take_zero]

theorem parseDefault_noTag {src : List Char} (h : ¬ defaultLeftDelim <:+: src)
    (hne : src ≠ []) : parseDefault src = .ok [.text src] := by
  unfold parseDefault parseSource
  rw [lexAll_noTag h hne]
  rfl

/-- C9: a template source without any occurrence of the (default) left
delimiter parses to at most a single text node, and rendering it against
any context chain writes exactly the source text, with no error. -/
theorem c9_tag_free_renders_verbatim (src : List Char) (c : List Value)
    (h : ¬ defaultLeftDelim <:+: src) :
    renderSourceDefault src c = .ok (src, none) := by
  by_cases hne : src = []
  · subst hne; rfl
  · unfold renderSourceDefault
    rw [parseDefault_noTag h hne]
    have key : renderTemplate (src.length + 8)
        (fun _ => { newTemplateData with elems := [Node.text src] }) 0 newWriter c =
        ⟨fun _ => { newTemplateData with elems := [Node.text src] },
         (writeText newWriter src).flush, none⟩ := rfl
    dsimp only
    rw [key]
    have hb := (writeText_buf src newWriter).1
    have hs := (writeText_buf src newWriter).2
    simp only [Writer.flush, hs, hb]
    simp [newWriter]

/-- C9 witness: the theorem applied at a concrete tag-free source and
context. -/
theorem c9_tag_free_renders_verbatim_witness :
    ¬ defaultLeftDelim <:+: "hello world".data ∧
      renderSourceDefault "hello world".data [Value.vmap []] =
        .ok ("hello world".data, none) :=
  ⟨by decide, c9_tag_free_renders_verbatim "hello world".data [Value.vmap []] (by decide)⟩

/-- C6: the section-gating truthiness predicate, shape by shape:
sequences are truthy iff non-empty; signed integers iff strictly
positive (negative integers falsy); unsigned integers iff strictly
positive; floats iff strictly positive; strings iff non-empty; booleans
iff true; a pointer is truthy iff present with a truthy pointee; the nil
interface is falsy; any other modelled shape (maps) is non-null and
truthy. -/
theorem c6_truthiness :
    (∀ l : List Value, (truth (.seq l) = true ↔ l ≠ [])) ∧
    (∀ i : Int, (truth (.int i) = true ↔ 0 < i)) ∧
    (∀ n : Nat, (truth (.uint n) = true ↔ 0 < n)) ∧
    (∀ q : ℚ, (truth (.float q) = true ↔ 0 < q)) ∧
    (∀ s : List Char, (truth (.str s) = true ↔ s ≠ [])) ∧
    (∀ b : Bool, (truth (.bool b) = true ↔ b = true)) ∧
    truth (.ptr none) = false ∧
    (∀ v : Value, truth (.ptr (some v)) = truth v) ∧
    truth .null = false ∧
    (∀ m : List (List Char × Value), truth (.vmap m) = true) := by
  refine ⟨?_, ?_, ?_, ?_, ?_, ?_, rfl, fun v => rfl, rfl, fun m => rfl⟩
  · intro l
    simp [truth, List.length_pos]
  · intro i
    simp [truth]
  · intro n
    simp [truth]
  · intro q
    simp [truth]
  · intro s
    simp [truth]
  · intro b
    simp [truth]

/-- C5 counterexample: the claim resolves a dotted name's suffix whenever
the head resolved to a *present* value, but the code requires a *truthy*
one.  For the name `a..` over a context binding `a` to the present falsy
value `false`, the claimed procedure yields the present value `false`
while the code yields the nil interface: the claim is false at this
input. -/
theorem c5_counterexample :
    lookup "a..".data [ .vmap [("a".data, .bool false)] ] = (.null, false) ∧
    lookupClaimed "a..".data [ .vmap [("a".data, .bool false)] ] = (.bool false, false) ∧
    lookup "a..".data [ .vmap [("a".data, .bool false)] ] ≠
      lookupClaimed "a..".data [ .vmap [("a".data, .bool false)] ] :=
  ⟨rfl, rfl, fun h => Value.noConfusion (congrArg Prod.fst h)⟩

/-- C5 amended: for a dotted name `a.b` (not literally `.`), `a` is
resolved against the full chain and, exactly when the result is *truthy*,
`b` is resolved against the single-element chain holding it; when `a`
resolves absent *or falsy* the overall result is `(nil, false)` — no
fallback to outer contexts for the suffix. -/
theorem c5_dotted_lookup_truthy_gated (name : List Char) (context : List Value)
    (pr : List Char × List Char) (h : splitFirst name = some pr)
    (hd : name ≠ ['.']) :
    lookup name context =
      (if (lookup pr.1 context).2 then lookup pr.2 [(lookup pr.1 context).1]
       else (.null, false)) := by
  have hlen := splitFirst_length h
  show lookupF (name.length + 1) name context = _
  rw [show name.length + 1 = Nat.succ name.length from rfl]
  simp only [lookupF, h, if_neg hd]
  rw [lookupF_eq_lookup name.length pr.1 context (by omega)]
  by_cases hok : (lookup pr.1 context).2
  · simp only [hok, if_true]
    rw [lookupF_eq_lookup name.length pr.2 _ (by omega)]
  · simp only [hok, Bool.false_eq_true, if_false]

/-- C5 amended witness: the theorem applied at the concrete dotted name
`a.b`. -/
theorem c5_dotted_lookup_truthy_gated_witness :
    splitFirst "a.b".data = some ("a".data, "b".data) ∧
    lookup "a.b".data [ .vmap [("a".data, .vmap [("b".data, .str "x".data)])] ] =
      (if (lookup "a".data [ .vmap [("a".data, .vmap [("b".data, .str "x".data)])] ]).2
       then lookup "b".data
         [(lookup "a".data [ .vmap [("a".data, .vmap [("b".data, .str "x".data)])] ]).1]
       else (.null, false)) :=
  ⟨rfl, c5_dotted_lookup_truthy_gated "a.b".data
    [ .vmap [("a".data, .vmap [("b".data, .str "x".data)])] ]
    ("a".data, "b".data) rfl (by decide)⟩

/-- A heap of default-configured (empty) templates. -/
def defStore : Store := fun _ => newTemplateData

/-- A one-template heap whose template body is the single variable tag
`k` under the default (silent-miss) configuration. -/
def c10Store : Store := fun _ =>
  { newTemplateData with elems := [.varn "k".data .htmlEscape] }

/-- C10: at the variable-node interface a mapping key bound to nil is
exactly an absent name: lookup reports the match with a nil value and
falsy truth, the variable node writes nothing and signals the same
lookup-miss error as for the absent key, and a whole-template render
under the default silent-miss policy swallows the miss, producing empty
output and no error. -/
theorem c10_present_null_behaves_as_absent (f : Nat) (esc : EscapeType)
    (w : Writer) (tid : Nat) :
    lookup "k".data [ .vmap [("k".data, .null)] ] = (.null, false) ∧
    renderNode (f + 1) defStore tid w [ .vmap [("k".data, .null)] ]
        (.varn "k".data esc) =
      ⟨defStore, w.text, some (.miss "k".data)⟩ ∧
    renderNode (f + 1) defStore tid w [ .vmap [("k".data, .null)] ]
        (.varn "k".data esc) =
      renderNode (f + 1) defStore tid w [ .vmap [] ] (.varn "k".data esc) ∧
    (renderTemplate (f + 3) c10Store 0 newWriter
        [ .vmap [("k".data, .null)] ]).err = none ∧
    (renderTemplate (f + 3) c10Store 0 newWriter
        [ .vmap [("k".data, .null)] ]).wr.sink = [] :=
  ⟨rfl, rfl, rfl, rfl, rfl⟩

/-- C4 counterexample: the claim says an inverted section whose name
resolves falsy/absent renders its children with the *unmodified* chain.
Rendering `{{^foo}}{{.}}{{/foo}}` against the chain `["hi"]` (where
`foo` is absent) writes nothing — the code pushed the looked-up nil onto
the chain, so `{{.}}` resolves to nil and misses — while rendering the
children directly with the unmodified chain writes `hi`: the claim is
false at this input. -/
theorem c4_counterexample :
    (renderNode 50 defStore 0 newWriter [ .str "hi".data ]
        (.sect "foo".data true [ .varn ".".data .noEscape ])).wr.buf = [] ∧
    (renderList 50 defStore 0 newWriter [ .str "hi".data ]
        [ .varn ".".data .noEscape ]).2.1.buf = "hi".data :=
  ⟨rfl, rfl⟩

/-- C4 amended: an inverted section whose name resolves falsy or absent
renders its children exactly once with the *looked-up value (nil when
absent) prepended* to the context chain, collecting child errors as
usual; it renders nothing (beyond tag bookkeeping) when the name
resolves truthy. -/
theorem c4_inverted_section_pushes_value (f : Nat) (st : Store) (tid : Nat)
    (w : Writer) (c : List Value) (name : List Char) (elems : List Node) :
    renderNode (f + 1) st tid w c (.sect name true elems) =
      (if (lookup name c).2 then ⟨st, (w.tag).tag, none⟩
       else
        let body := renderList f st tid w.tag ((lookup name c).1 :: c) elems
        ⟨body.1, body.2.1.tag,
          if body.2.2.isEmpty then none
          else if (body.1 tid).silentMiss then none else some (.slice body.2.2)⟩) := by
  show (renderStep (renderFns f)).node st tid w c (.sect name true elems) = _
  simp only [renderStep, renderList]
  by_cases hok : (lookup name c).2
  · simp [hok]
  · have hokf : (lookup name c).2 = false := by
      cases h2 : (lookup name c).2
      · rfl
      · exact absurd h2 hok
    have ht := lookup_truth name c
    rw [hokf] at ht
    rw [hokf]
    cases hv : (lookup name c).1 with
    | seq l =>
      rw [hv] at ht
      have hl : l = [] := by
        cases l with
        | nil => rfl
        | cons a as => simp [truth] at ht
      subst hl
      simp [hv]
    | null => simp [hv]
    | bool b => simp [hv]
    | int i => simp [hv]
    | uint n => simp [hv]
    | float q => simp [hv]
    | str s2 => simp [hv]
    | vmap m => simp [hv]
    | ptr p => simp [hv]

/-- C1: the tokenizer produces a function-section token for `{{~name}}`
and the `functionSectionNode` type exists with a full `render`
implementation, but `parseTag` has no case for the function-section
token, so parsing the repository's own `TestCustomFunctions` template
falls into the `unreachable code` branch and fails instead of producing
a function-section node. -/
theorem c1_function_section_tag_fails_to_parse :
    parseDefault "\x7b\x7b~reverse\x7d\x7dtxet erom\x7b\x7b/reverse\x7d\x7d".data =
      .error (.atPos 1 3 ("unreachable code t_section_function:~".data)) := by
  rfl

/-- C8: depth-balanced close matching.  `{{#foo}}{{#foo}}X{{/foo}}{{/foo}}`
parses to exactly one section node containing exactly one child section
node containing exactly the text node `X` (not naive first-close
matching), and an inverse-section open of the same name likewise
increments the depth counter. -/
theorem c8_nested_same_name_sections :
    parseDefault
        "\x7b\x7b#foo\x7d\x7d\x7b\x7b#foo\x7d\x7dX\x7b\x7b/foo\x7d\x7d\x7b\x7b/foo\x7d\x7d".data =
      .ok [ .sect "foo".data false [ .sect "foo".data false [ .text "X".data ] ] ] ∧
    parseDefault
        "\x7b\x7b^foo\x7d\x7d\x7b\x7b#foo\x7d\x7dX\x7b\x7b/foo\x7d\x7d\x7b\x7b/foo\x7d\x7d".data =
      .ok [ .sect "foo".data true [ .sect "foo".data false [ .text "X".data ] ] ] := by
  exact ⟨rfl, rfl⟩

/-- C7 counterexample: the claim says a malformed delimiter-change
directive yields a single error token and the tokenizer then stops.  On
`{{=ab=}}X` the scanner emits the error token but *continues* — the
`errorf` halt state is discarded in `stateSetDelim` — emitting a
delimiter-change token, a text token and an end-of-input token, with the
left delimiter now set to `ab`. -/
theorem c7_counterexample :
    lexAll "\x7b\x7b=ab=\x7d\x7dX".data defaultLeftDelim defaultRightDelim false =
      [⟨.error, "set delimiters should be separated by a space".data, 1, 3⟩,
       ⟨.setDelim, [], 1, 8⟩, ⟨.text, "X".data, 1, 9⟩, ⟨.eof, [], 1, 9⟩] := by
  rfl

theorem subIndex_boundary {p pre : List Char} (h : '=' ∉ pre) :
    subIndex ('=' :: p) (pre ++ '=' :: p) = some pre.length := by
  induction pre with
  | nil =>
    simp only [List.nil_append, subIndex, List.length_nil]
    rw [if_pos]
    exact List.isPrefixOf_iff_prefix.mpr (List.prefix_refl _)
  | cons c cs ih =>
    have hc : c ≠ '=' := fun hh => h (hh ▸ List.mem_cons_self c cs)
    have hcs : '=' ∉ cs := fun hh => h (List.mem_cons_of_mem c hh)
    have hp : ¬ ('=' :: p).isPrefixOf (c :: (cs ++ '=' :: p)) = true := by
      intro hpre
      rcases List.isPrefixOf_iff_prefix.mp hpre with ⟨t, ht⟩
      have : '=' = c := by
        have := congrArg (fun l => l.head?) ht
        simpa using this
      exact hc this.symm
    simp only [List.cons_append, subIndex, if_neg hp, List.append_eq, ih hcs,
      Option.map_some', List.length_cons]

theorem splitOnChar_eq_single {sep : Char} {l : List Char} (h : sep ∉ l) :
    splitOnChar sep l = [l] := by
  induction l with
  | nil => rfl
  | cons c cs ih =>
    have hc : ¬ c = sep := fun hh => h (hh ▸ List.mem_cons_self c cs)
    have hcs : sep ∉ cs := fun hh => h (List.mem_cons_of_mem c hh)
    simp only [splitOnChar, ih hcs, if_neg hc]

theorem lexRun_succ (f : Nat) (s : LexState) (l : Lexer) :
    lexRun (f + 1) s l =
      (match lexStep s l with
       | (ts, none) => ts
       | (ts, some (s2, l2)) => ts ++ lexRun f s2 l2) := rfl

/-- C7 amended: a delimiter-change directive whose interior has fewer
than two space-separated fields (the code checks `len(delims) < 2` on a
raw split) emits an error token but the scan *continues*: the non-empty
fields still take effect as delimiters, a delimiter-change token is
emitted, and scanning proceeds to end of input — the error token is not
the last token and no halt occurs. -/
theorem c7_malformed_setdelim_continues (interior : List Char)
    (hne : interior ≠ []) (hsp : ' ' ∉ interior) (heq : '=' ∉ interior) :
    (lexAll ('\x7b' :: '\x7b' :: '=' :: (interior ++ ['=', '\x7d', '\x7d']))
        defaultLeftDelim defaultRightDelim false).map Token.typ =
      [.error, .setDelim, .eof] := by
  have hlen : ('\x7b' :: '\x7b' :: '=' :: (interior ++ ['=', '\x7d', '\x7d'])).length =
      interior.length + 6 := by
    simp [List.length_append]
  unfold lexAll
  rw [hlen]
  rw [show 4 * (interior.length + 6) + 16 = (4 * interior.length + 39) + 1 from by omega]
  rw [lexRun_succ]
  simp only [lexStep, newLexer, stepText]
  have h1 : subIndex defaultLeftDelim
      ('\x7b' :: '\x7b' :: '=' :: (interior ++ ['=', '\x7d', '\x7d'])) = some 0 := by
    simp [subIndex, defaultLeftDelim, List.isPrefixOf]
  simp only [List.drop_zero, h1]
  simp only [Nat.add_zero, gt_iff_lt, lt_self_iff_false, if_false]
  rw [show 4 * interior.length + 39 = (4 * interior.length + 38) + 1 from by omega]
  rw [lexRun_succ]
  simp only [lexStep, stepLeftDelim]
  have h2 : ('\x7b' :: '\x7b' :: '=' :: (interior ++ ['=', '\x7d', '\x7d'])).drop
      (0 + defaultLeftDelim.length) = '=' :: (interior ++ ['=', '\x7d', '\x7d']) := by
    simp [defaultLeftDelim]
  rw [h2]
  simp only [List.head?_cons, if_true]
  rw [show 4 * interior.length + 38 = (4 * interior.length + 37) + 1 from by omega]
  rw [lexRun_succ]
  simp only [lexStep, stepSetDelim]
  have h3 : ('\x7b' :: '\x7b' :: '=' :: (interior ++ ['=', '\x7d', '\x7d'])).drop
      (0 + defaultLeftDelim.length + 1) = interior ++ ['=', '\x7d', '\x7d'] := by
    simp [defaultLeftDelim]
  rw [h3]
  have h4 : subIndex ('=' :: defaultRightDelim) (interior ++ ['=', '\x7d', '\x7d']) =
      some interior.length := subIndex_boundary heq
  rw [h4]
  dsimp only
  rw [List.take_left]
  rw [splitOnChar_eq_single hsp]
  have hf : List.filter (fun d => decide (d ≠ [])) [interior] = [interior] := by
    simp [hne]
  rw [hf]
  dsimp only
  have hP : 0 + defaultLeftDelim.length + 1 + interior.length +
      ('=' :: defaultRightDelim).length = interior.length + 6 := by
    simp [defaultLeftDelim, defaultRightDelim]
    omega
  rw [hP]
  simp only [Lexer.emit]
  rw [show 4 * interior.length + 37 = (4 * interior.length + 36) + 1 from by omega]
  rw [lexRun_succ]
  simp only [lexStep, stepText]
  have h5 : ('\x7b' :: '\x7b' :: '=' :: (interior ++ ['=', '\x7d', '\x7d'])).drop
      (interior.length + 6) = [] :=
    List.drop_eq_nil_of_le (le_of_eq hlen)
  rw [h5]
  have h6 : subIndex interior [] = none := by
    cases interior with
    | nil => exact absurd rfl hne
    | cons a as => simp [subIndex, List.isPrefixOf]
  rw [h6]
  rw [hlen]
  simp only [gt_iff_lt, lt_self_iff_false, if_false]
  simp [Lexer.emit, Lexer.errTok, List.map]

/-- C7 amended witness: the theorem applied at the concrete interior
`ab`. -/
theorem c7_malformed_setdelim_continues_witness :
    ("ab".data ≠ [] ∧ ' ' ∉ "ab".data ∧ '=' ∉ "ab".data) ∧
    (lexAll ('\x7b' :: '\x7b' :: '=' :: ("ab".data ++ ['=', '\x7d', '\x7d']))
        defaultLeftDelim defaultRightDelim false).map Token.typ =
      [.error, .setDelim, .eof] :=
  ⟨⟨by decide, by decide, by decide⟩,
   c7_malformed_setdelim_continues "ab".data (by decide) (by decide) (by decide)⟩

/-- A one-template heap with silent miss *disabled* whose template body
is the variable tag `a` followed by the text `X`. -/
def c3Store : Store := fun _ =>
  { newTemplateData with
      silentMiss := false
      elems := [.varn "a".data .htmlEscape, .text "X".data] }

/-- C3 counterexample: the claim says that with silent miss disabled a
render collects miss errors across a node list without stopping,
bubbling the aggregate only after the whole render, output already
written.  At the template's own top-level node list the code *returns at
the first miss*: rendering `{{a}}X` over an empty context yields the
single (non-aggregated) miss error, the following text node `X` is never
rendered, and the final flush is skipped, so the sink stays empty. -/
theorem c3_counterexample :
    (renderTemplate 50 c3Store 0 newWriter []).err = some (.miss "a".data) ∧
    (renderTemplate 50 c3Store 0 newWriter []).wr.sink = [] ∧
    (renderTemplate 50 c3Store 0 newWriter []).wr.buf = [] :=
  ⟨rfl, rfl, rfl⟩

/-- A one-template heap with silent miss disabled whose template body is
a single section over the children `{{a}}X{{b}}`. -/
def c3SectStore : Store := fun _ =>
  { newTemplateData with
      silentMiss := false
      elems := [.sect "s".data false
        [.varn "a".data .htmlEscape, .text "X".data, .varn "b".data .htmlEscape]] }

/-- C3 amended: error collection without short-circuiting happens inside
a *section's* children list — both misses of `{{#s}}{{a}}X{{b}}{{/s}}`
are collected and the interleaved text is rendered — but the top-level
walk of `Template.render` returns that aggregate at the first failing
node, skipping any remaining nodes and the final flush (the buffered
output never reaches the sink). -/
theorem c3_top_level_short_circuits :
    (renderTemplate 50 c3SectStore 0 newWriter [ .vmap [("s".data, .int 1)] ]).err =
      some (.slice [.miss "a".data, .miss "b".data]) ∧
    (renderTemplate 50 c3SectStore 0 newWriter [ .vmap [("s".data, .int 1)] ]).wr.buf =
      "X".data ∧
    (renderTemplate 50 c3SectStore 0 newWriter [ .vmap [("s".data, .int 1)] ]).wr.sink =
      [] :=
  ⟨rfl, rfl, rfl⟩

/-- A one-template heap whose template `T` registers *itself* as a
partial and whose body is the text `A` followed by `{{>T}}`. -/
def c2Store : Store := fun _ =>
  { newTemplateData with
      name := "T".data
      elems := [.text "A".data, .pRef "T".data]
      partials := [("T".data, 0)] }

/-- C2 counterexample: rendering is not side-effect-free on shared
Template state, and identical renders are not idempotent.  The partial
node *assigns* the reduced map to the invoked template: after rendering
the self-registered template `T` (output `AA`), `T`'s own partial map
has been emptied, and rendering again from the mutated heap produces
`A`. -/
theorem c2_counterexample :
    (renderTemplate 20 c2Store 0 newWriter []).wr.sink = "AA".data ∧
    (renderTemplate 20 (renderTemplate 20 c2Store 0 newWriter []).store
        0 newWriter []).wr.sink = "A".data ∧
    ((renderTemplate 20 c2Store 0 newWriter []).store 0).partials = [] ∧
    (c2Store 0).partials = [("T".data, 0)] :=
  ⟨rfl, rfl, rfl, rfl⟩

/-- Equality of every piece of template state rendering may read but
must never write: everything except the partial maps. -/
def FrameEq (a b : Store) : Prop :=
  ∀ id : Nat,
    (a id).name = (b id).name ∧
    (a id).elems = (b id).elems ∧
    (a id).customizers = (b id).customizers ∧
    (a id).startDelim = (b id).startDelim ∧
    (a id).endDelim = (b id).endDelim ∧
    (a id).silentMiss = (b id).silentMiss ∧
    (a id).testValueSection = (b id).testValueSection ∧
    (a id).escape = (b id).escape

theorem frameEq_refl (a : Store) : FrameEq a a :=
  fun _ => ⟨rfl, rfl, rfl, rfl, rfl, rfl, rfl, rfl⟩

theorem frameEq_trans {a b c : Store} (h1 : FrameEq a b) (h2 : FrameEq b c) :
    FrameEq a c := by
  intro i
  rcases h1 i with ⟨e1, e2, e3, e4, e5, e6, e7, e8⟩
  rcases h2 i with ⟨f1, f2, f3, f4, f5, f6, f7, f8⟩
  exact ⟨e1.trans f1, e2.trans f2, e3.trans f3, e4.trans f4, e5.trans f5,
    e6.trans f6, e7.trans f7, e8.trans f8⟩

theorem frameEq_updatePartials (st : Store) (i : Nat) (p : List (List Char × Nat)) :
    FrameEq (updateStore st i (fun d => { d with partials := p })) st := by
  intro j
  unfold updateStore
  by_cases hj : j = i <;> simp [hj]

/-- Rendering at any fuel changes nothing outside partial maps, for each
of the five render routines. -/
theorem renderFrame (f : Nat) :
    (∀ st tid w c n, FrameEq ((renderNode f st tid w c n).store) st) ∧
    (∀ st tid w c ns, FrameEq ((renderList f st tid w c ns).1) st) ∧
    (∀ st tid w c elems xs, FrameEq ((renderSeqLoop f st tid w c elems xs).1) st) ∧
    (∀ st tid w c, FrameEq ((renderTemplate f st tid w c).store) st) ∧
    (∀ st tid w c ns, FrameEq ((renderElems f st tid w c ns).store) st) := by
  induction f with
  | zero =>
    exact ⟨fun st _ _ _ _ => frameEq_refl st, fun st _ _ _ _ => frameEq_refl st,
      fun st _ _ _ _ _ => frameEq_refl st, fun st _ _ _ => frameEq_refl st,
      fun st _ _ _ _ => frameEq_refl st⟩
  | succ f ih =>
    obtain ⟨ihN, ihL, ihS, ihT, ihE⟩ := ih
    refine ⟨?_, ?_, ?_, ?_, ?_⟩
    · intro st tid w c n
      show FrameEq (((renderStep (renderFns f)).node st tid w c n).store) st
      dsimp only [renderStep]
      cases n with
      | text s => exact frameEq_refl st
      | varn name esc =>
        dsimp only
        split
        · exact frameEq_refl st
        · exact frameEq_refl st
      | sect name inverted elems =>
        dsimp only
        split
        · split
          · split
            · exact ihS st tid _ c elems _
            · exact ihL st tid _ _ elems
          · exact ihL st tid _ _ elems
        · exact frameEq_refl st
      | funcSect name opts elems =>
        dsimp only
        split
        · exact ihL st tid _ c elems
        · split
          · split
            · exact ihL st tid _ c elems
            · exact ihL st tid _ c elems
          · exact ihL st tid _ c elems
      | testv ident tval elems =>
        dsimp only
        split
        · exact frameEq_refl st
        · split
          · exact ihL st tid _ c elems
          · exact frameEq_refl st
      | comment s => exact frameEq_refl st
      | delim => exact frameEq_refl st
      | pRef name =>
        dsimp only
        split
        · exact frameEq_refl st
        · next pid _ =>
          have hupd : ∀ p : List (List Char × Nat),
              FrameEq (updateStore
                (updateStore st pid (fun d => { d with partials := [] })) pid
                (fun d => { d with partials := p })) st :=
            fun p => frameEq_trans (frameEq_updatePartials _ pid p)
              (frameEq_updatePartials st pid [])
          split
          · exact frameEq_trans (ihT _ pid _ c) (hupd _)
          · split
            · exact frameEq_trans (ihT _ pid _ c) (hupd _)
            · exact frameEq_trans (ihT _ pid _ c) (hupd _)
    · intro st tid w c ns
      show FrameEq (((renderStep (renderFns f)).list st tid w c ns).1) st
      dsimp only [renderStep]
      cases ns with
      | nil => exact frameEq_refl st
      | cons n rest =>
        dsimp only
        split
        · exact frameEq_trans (ihL _ tid _ c rest) (ihN st tid w c n)
        · exact frameEq_trans (ihL _ tid _ c rest) (ihN st tid w c n)
    · intro st tid w c elems xs
      show FrameEq (((renderStep (renderFns f)).seqLoop st tid w c elems xs).1) st
      dsimp only [renderStep]
      cases xs with
      | nil => exact frameEq_refl st
      | cons x rest =>
        dsimp only
        exact frameEq_trans (ihS _ tid _ c elems rest) (ihL st tid w _ elems)
    · intro st tid w c
      show FrameEq (((renderStep (renderFns f)).template st tid w c).store) st
      exact ihE st tid w c _
    · intro st tid w c ns
      show FrameEq (((renderStep (renderFns f)).elems st tid w c ns).store) st
      dsimp only [renderStep]
      cases ns with
      | nil => exact frameEq_refl st
      | cons n rest =>
        dsimp only
        split
        · split
          · exact ihN st tid w c n
          · exact frameEq_trans (ihE _ tid _ c rest) (ihN st tid w c n)
        · exact frameEq_trans (ihE _ tid _ c rest) (ihN st tid w c n)

/-- C2 amended: the render-time partial self-exclusion builds a new
reduced map but *assigns* it to the invoked partial's Template, so
rendering may mutate Template partial maps (and identical renders need
not be idempotent — see the counterexample); rendering never mutates any
Template's name, node tree, customizer map, delimiters, silent-miss
flag, test-value flag or escape mode. -/
theorem c2_render_mutates_only_partials (f : Nat) (st : Store) (tid : Nat)
    (w : Writer) (c : List Value) :
    FrameEq ((renderTemplate f st tid w c).store) st :=
  (renderFrame f).2.2.2.1 st tid w c

end Mustache
